import Mathlib

/-
Verification of the in-memory data-flow core: `Block` (src/unnamed/part_001,
a translation of dbms Block.cpp) and `ExecutionSpeedLimits`
(src/dbms/src/DataStreams/ExecutionSpeedLimits.cpp).

Modelling conventions:
* `std::list<ColumnWithNameAndType> data` is a list of pairs `(id, element)`
  where `id` is a stable node identity standing for the list node / iterator:
  iterators stored in the two indexes stay valid across insertions and
  erasures of other nodes, exactly as for `std::list`.
* `std::map<String, iterator> index_by_name` is an association list with the
  map operations `find`, `operator[]` (insert-or-assign) and `erase(find(k))`.
* `std::vector<iterator> index_by_position` is a list of node ids.
* machine integers are `Nat` with explicit `% 2^64` where wrap-around matters;
  `double` arithmetic of the speed limiter is modelled exactly over `ℚ`
  (the values reached in the claims below are exactly representable).
-/

deriving instance DecidableEq for Except

namespace DB

/-- Association-list lookup, modelling `std::map::find` (keys are unique). -/
def assocFind {α : Type} (l : List (String × α)) (k : String) : Option α :=
  (l.find? (fun kv => kv.1 == k)).map (fun kv => kv.2)

/-- Association-list insert-or-assign, modelling `std::map::operator[] =`. -/
def assocSet {α : Type} : List (String × α) → String → α → List (String × α)
  | [], k, v => [(k, v)]
  | kv :: t, k, v => if kv.1 = k then (k, v) :: t else kv :: assocSet t k v

/-- Association-list erase, modelling `std::map::erase(map.find(k))`; the source
only erases keys it has just found, so the missing-key case (a no-op here)
is never exercised on blocks whose indexes are consistent. -/
def assocErase {α : Type} : List (String × α) → String → List (String × α)
  | [], _ => []
  | kv :: t, k => if kv.1 = k then t else kv :: assocErase t k

/-- Keys of an association list. -/
def assocKeys {α : Type} (l : List (String × α)) : List String := l.map (fun kv => kv.1)

@[simp] theorem assocFind_nil {α : Type} (k : String) :
    assocFind ([] : List (String × α)) k = none := rfl

theorem assocFind_cons {α : Type} (kv : String × α) (t : List (String × α)) (k : String) :
    assocFind (kv :: t) k = if kv.1 = k then some kv.2 else assocFind t k := by
  by_cases h : kv.1 = k
  · rw [if_pos h]
    unfold assocFind
    rw [List.find?_cons_of_pos _ (by simp [h])]
    rfl
  · rw [if_neg h]
    unfold assocFind
    rw [List.find?_cons_of_neg _ (by simp [h])]

theorem assocFind_assocSet {α : Type} (l : List (String × α)) (k k' : String) (v : α) :
    assocFind (assocSet l k v) k' = if k = k' then some v else assocFind l k' := by
  induction l with
  | nil => simp [assocSet, assocFind_cons]
  | cons kv t ih =>
    by_cases hk : kv.1 = k
    · subst hk
      by_cases h : kv.1 = k' <;> simp [assocSet, assocFind_cons, h]
    · simp only [assocSet, if_neg hk, assocFind_cons, ih]
      by_cases h1 : kv.1 = k'
      · have h2 : ¬k = k' := fun he => hk (h1.trans he.symm)
        simp [h1, h2]
      · simp [h1]

theorem assocFind_eq_none_of_not_mem {α : Type} (l : List (String × α)) (k : String)
    (h : k ∉ assocKeys l) : assocFind l k = none := by
  induction l with
  | nil => rfl
  | cons kv t ih =>
    simp only [assocKeys, List.map_cons, List.mem_cons, not_or] at h
    rw [assocFind_cons, if_neg (fun he => h.1 he.symm), ih h.2]

theorem assocFind_assocErase {α : Type} (l : List (String × α)) (k k' : String)
    (hnd : (assocKeys l).Nodup) :
    assocFind (assocErase l k) k' = if k = k' then none else assocFind l k' := by
  induction l with
  | nil => by_cases h : k = k' <;> simp [assocErase, h]
  | cons kv t ih =>
    simp only [assocKeys, List.map_cons, List.nodup_cons] at hnd
    by_cases hk : kv.1 = k
    · by_cases h : k = k'
      · subst h; subst hk
        simp only [assocErase, if_pos rfl, if_pos rfl]
        exact assocFind_eq_none_of_not_mem t kv.1 hnd.1
      · subst hk
        simp [assocErase, assocFind_cons, h]
    · by_cases h : k = k'
      · subst h
        simp [assocErase, hk, assocFind_cons, hk, ih hnd.2]
      · simp [assocErase, hk, assocFind_cons, ih hnd.2, h]

theorem assocKeys_assocErase_sublist {α : Type} (l : List (String × α)) (k : String) :
    (assocKeys (assocErase l k)).Sublist (assocKeys l) := by
  induction l with
  | nil => simp [assocErase, assocKeys]
  | cons kv t ih =>
    by_cases hk : kv.1 = k
    · simp only [assocErase, if_pos hk, assocKeys, List.map_cons]
      exact (List.sublist_cons_self _ _)
    · simp only [assocErase, if_neg hk, assocKeys, List.map_cons]
      exact List.Sublist.cons₂ _ ih

theorem assocKeys_assocErase_nodup {α : Type} (l : List (String × α)) (k : String)
    (hnd : (assocKeys l).Nodup) : (assocKeys (assocErase l k)).Nodup :=
  (assocKeys_assocErase_sublist l k).nodup hnd

theorem assocKeys_assocSet {α : Type} (l : List (String × α)) (k : String) (v : α) :
    assocKeys (assocSet l k v) =
      if k ∈ assocKeys l then assocKeys l else assocKeys l ++ [k] := by
  induction l with
  | nil => simp [assocSet, assocKeys]
  | cons kv t ih =>
    by_cases hk : kv.1 = k
    · subst hk
      simp [assocSet, assocKeys]
    · have hmem : (k ∈ assocKeys (kv :: t)) = (k ∈ assocKeys t) := by
        simp only [assocKeys, List.map_cons, List.mem_cons, eq_iff_iff]
        exact ⟨fun h => h.elim (fun he => absurd he.symm hk) id, Or.inr⟩
      simp only [assocSet, if_neg hk, assocKeys, List.map_cons] at ih ⊢
      rw [ih]
      by_cases h : k ∈ List.map (fun kv => kv.1) t
      · simp [h, hmem]
      · have h' : ¬k ∈ List.map (fun kv : String × α => kv.1) (kv :: t) := by
          simp only [List.map_cons, List.mem_cons, not_or]
          exact ⟨fun he => hk he.symm, h⟩
        simp only [List.map_cons] at h'
        simp [h, h']

theorem assocKeys_assocSet_nodup {α : Type} (l : List (String × α)) (k : String) (v : α)
    (hnd : (assocKeys l).Nodup) : (assocKeys (assocSet l k v)).Nodup := by
  rw [assocKeys_assocSet]
  by_cases h : k ∈ assocKeys l
  · simpa [h] using hnd
  · rw [if_neg h]
    exact List.Nodup.append hnd (List.nodup_singleton k)
      (by simpa [List.disjoint_singleton] using h)

/-- Type descriptor contract: the core only uses `getName()`, `behavesAsNumber()`
and `behavesAsString()` of `IDataType`. -/
structure DataType where
  getName : String
  behavesAsNumber : Bool
  behavesAsString : Bool
deriving DecidableEq, Inhabited

/-- Column handle contract: a size-queryable opaque column; a `ColumnArray`
additionally exposes its offsets (compared by `hasEqualOffsets`) and the
identity of its offsets storage (`getOffsetsColumn()` is a shared pointer,
so assigning it makes two array columns share one offsets storage). -/
inductive IColumn : Type
  | plain (sz : Nat)
  | array (offsetsStorageId : Nat) (offsets : List Nat)
deriving DecidableEq, Inhabited

/-- Row count of a column; for `ColumnArray` the number of rows is the number
of offsets entries. -/
def IColumn.size : IColumn → Nat
  | .plain sz => sz
  | .array _ offsets => offsets.length

/-- The atomic element stored in a `Block`. -/
structure ColumnWithNameAndType where
  column : IColumn
  type : DataType
  name : String
deriving DecidableEq, Inhabited

/-- Error kinds raised by the Block operations, with the message text built
exactly as in the source. -/
inductive BlockError
  | positionOutOfBound (msg : String)
  | columnNotFound (msg : String)
  | sizesMismatch (msg : String)
deriving DecidableEq

/-- Block state: `data` carries a stable node id with every element (the
`std::list` node / iterator identity), the position index is a vector of node
ids, the name index a map from name to node id; `next_id` supplies fresh node
ids for newly allocated list nodes. -/
structure Block where
  data : List (Nat × ColumnWithNameAndType)
  index_by_position : List Nat
  index_by_name : List (String × Nat)
  next_id : Nat
deriving DecidableEq, Inhabited

/-- The default-constructed empty block. -/
def Block.empty : Block := ⟨[], [], [], 0⟩

/-- Dereference a stored iterator (node id).  On blocks whose indexes are
consistent the id is always present in `data`, so the default is never used. -/
def derefId (l : List (Nat × ColumnWithNameAndType)) (id : Nat) : ColumnWithNameAndType :=
  ((l.find? (fun x => x.1 == id)).map (fun x => x.2)).getD default

/-- Position of a node in the data list, modelling
`std::distance(data.begin(), it)`. -/
def idPosition (l : List (Nat × ColumnWithNameAndType)) (id : Nat) : Nat :=
  l.findIdx (fun x => x.1 == id)

/-- Insertion before the node `anchor`, modelling `data.insert(it, elem)`
for a `std::list` (insertion before the iterator `it`). -/
def insertBeforeId (l : List (Nat × ColumnWithNameAndType)) (anchor : Nat)
    (x : Nat × ColumnWithNameAndType) : List (Nat × ColumnWithNameAndType) :=
  match l with
  | [] => [x]
  | y :: ys => if y.1 = anchor then x :: y :: ys else y :: insertBeforeId ys anchor x

/-- Removal of the node with the given id, modelling `data.erase(it)`. -/
def eraseById (l : List (Nat × ColumnWithNameAndType)) (id : Nat) :
    List (Nat × ColumnWithNameAndType) :=
  match l with
  | [] => []
  | y :: ys => if y.1 = id then ys else y :: eraseById ys id

/-- Block::dumpNames — the names joined by a comma separator. -/
def Block.dumpNames (b : Block) : String :=
  String.intercalate (", ") (b.data.map (fun x => x.2.name))

/-- Block::insert(const ColumnWithNameAndType &) — append at the end. -/
def Block.insert (b : Block) (elem : ColumnWithNameAndType) : Block :=
  { data := b.data ++ [(b.next_id, elem)]
    index_by_name := assocSet b.index_by_name elem.name b.next_id
    index_by_position := b.index_by_position ++ [b.next_id]
    next_id := b.next_id + 1 }

/-- Block::insert(size_t position, const ColumnWithNameAndType &).  The
resize-and-shift loop over `index_by_position` amounts to inserting the new
iterator at `position`, which `List.insertIdx` performs. -/
def Block.insertAt (b : Block) (position : Nat) (elem : ColumnWithNameAndType) :
    Except BlockError Block :=
  if position > b.index_by_position.length then
    .error (.positionOutOfBound (("Position out of bound in Block::insert(), max position = ")
      ++ toString b.index_by_position.length))
  else if position = b.index_by_position.length then
    .ok (b.insert elem)
  else
    .ok { data := insertBeforeId b.data (b.index_by_position.getD position 0) (b.next_id, elem)
          index_by_name := assocSet b.index_by_name elem.name b.next_id
          index_by_position := b.index_by_position.insertIdx position b.next_id
          next_id := b.next_id + 1 }

/-- Block::insertUnique — append only when the name index has no entry for
the element's name. -/
def Block.insertUnique (b : Block) (elem : ColumnWithNameAndType) : Block :=
  if (assocFind b.index_by_name elem.name).isNone then b.insert elem else b

/-- Block::erase(size_t position). -/
def Block.erase (b : Block) (position : Nat) : Except BlockError Block :=
  if position ≥ b.index_by_position.length then
    .error (.positionOutOfBound (("Position out of bound in Block::erase(), max position = ")
      ++ toString b.index_by_position.length))
  else
    let it := b.index_by_position.getD position 0
    .ok { data := eraseById b.data it
          index_by_name := assocErase b.index_by_name (derefId b.data it).name
          index_by_position := b.index_by_position.eraseIdx position
          next_id := b.next_id }

/-- Block::erase(const String &). -/
def Block.eraseByName (b : Block) (name : String) : Except BlockError Block :=
  match assocFind b.index_by_name name with
  | none => .error (.columnNotFound (("No such name in Block::erase(): \x27")
      ++ name ++ ("\x27")))
  | some it =>
    .ok { data := eraseById b.data it
          index_by_name := assocErase b.index_by_name name
          index_by_position := b.index_by_position.eraseIdx (idPosition b.data it)
          next_id := b.next_id }

/-- Block::getByPosition (the `size - 1` in the message is `size_t`
arithmetic, hence the wrap-around for an empty index). -/
def Block.getByPosition (b : Block) (position : Nat) : Except BlockError ColumnWithNameAndType :=
  if position ≥ b.index_by_position.length then
    .error (.positionOutOfBound (("Position ") ++ toString position
      ++ (" is out of bound in Block::getByPosition(), max position = ")
      ++ toString ((b.index_by_position.length + 2 ^ 64 - 1) % 2 ^ 64)
      ++ (", there are columns: ") ++ b.dumpNames))
  else
    .ok (derefId b.data (b.index_by_position.getD position 0))

/-- Block::getByName. -/
def Block.getByName (b : Block) (name : String) : Except BlockError ColumnWithNameAndType :=
  match assocFind b.index_by_name name with
  | none => .error (.columnNotFound (("Not found column ") ++ name
      ++ (" in block. There are only columns: ") ++ b.dumpNames))
  | some it => .ok (derefId b.data it)

/-- Block::has. -/
def Block.has (b : Block) (name : String) : Bool :=
  (assocFind b.index_by_name name).isSome

/-- Block::getPositionByName — `std::distance(data.begin(), it->second)`. -/
def Block.getPositionByName (b : Block) (name : String) : Except BlockError Nat :=
  match assocFind b.index_by_name name with
  | none => .error (.columnNotFound (("Not found column ") ++ name
      ++ (" in block. There are only columns: ") ++ b.dumpNames))
  | some it => .ok (idPosition b.data it)

/-- Loop body of Block::rows: `res` is the size of the previous column
(initially 0), `firstName` is `data.begin()->name` captured for the error
message. -/
def rowsGo (firstName : String) (res : Nat) :
    List (Nat × ColumnWithNameAndType) → Except BlockError Nat
  | [] => .ok res
  | x :: rest =>
    let size := x.2.column.size
    if res ≠ 0 ∧ size ≠ res then
      .error (.sizesMismatch (("Sizes of columns doesn\x27t match: ")
        ++ firstName ++ (": ") ++ toString res
        ++ (", ") ++ x.2.name ++ (": ") ++ toString size))
    else rowsGo firstName size rest

/-- Block::rows. -/
def Block.rows (b : Block) : Except BlockError Nat :=
  rowsGo (((b.data.head?).map (fun x => x.2.name)).getD ("")) 0 b.data

/-- Modelled from the spec: `Block::columns()` is declared in the Block header,
which is not among the source files; per the spec a block is "an ordered,
named collection of columns", so `columns()` is the element count. -/
def Block.columns (b : Block) : Nat := b.data.length

/-- Type descriptor of the column at a position, as the comparators read it
via `getByPosition(i).type` (always in bounds there). -/
def Block.typeAt (b : Block) (i : Nat) : DataType :=
  (derefId b.data (b.index_by_position.getD i 0)).type

/-- Anonymous-namespace helper typesAreCompatible of the Block source. -/
def typesAreCompatible (lhs rhs : DataType) : Bool :=
  if lhs.behavesAsNumber && rhs.behavesAsNumber then true
  else if lhs.behavesAsString && rhs.behavesAsString then true
  else if lhs.getName == rhs.getName then true
  else false

/-- Free function blocksHaveEqualStructure. -/
def blocksHaveEqualStructure (lhs rhs : Block) : Bool :=
  if rhs.columns ≠ lhs.columns then false
  else (List.range lhs.columns).all (fun i =>
    (Block.typeAt lhs i).getName == (Block.typeAt rhs i).getName)

/-- Free function blocksHaveCompatibleStructure. -/
def blocksHaveCompatibleStructure (lhs rhs : Block) : Bool :=
  if rhs.columns ≠ lhs.columns then false
  else (List.range lhs.columns).all (fun i =>
    typesAreCompatible (Block.typeAt lhs i) (Block.typeAt rhs i))

/-- Characters of a name up to (excluding) the first dot. -/
def takeUntilDot : List Char → List Char
  | [] => []
  | c :: rest => if c = '.' then [] else c :: takeUntilDot rest

/-- Modelled from the spec: `DataTypeNested::extractNestedTableName` is not
among the source files; per the spec a nested group is "a set of array-typed
columns sharing a name prefix", the prefix being the part of the name before
the first dot (the whole name when there is no dot). -/
def extractNestedTableName (name : String) : String :=
  ⟨takeUntilDot name.data⟩

/-- Loop of Block::checkNestedArraysOffsets: `seen` is the
`std::map<String, const ColumnArray *>` of the first array column seen for
each nested group (represented by that column's offsets, which is all
`hasEqualOffsets` reads). -/
def checkNestedGo (seen : List (String × List Nat)) :
    List (Nat × ColumnWithNameAndType) → Except BlockError Unit
  | [] => .ok ()
  | x :: rest =>
    match x.2.column with
    | .array _ offsets =>
      let gname := extractNestedTableName x.2.name
      match assocFind seen gname with
      | none => checkNestedGo (assocSet seen gname offsets) rest
      | some offsets0 =>
        if offsets0 = offsets then checkNestedGo seen rest
        else .error (.sizesMismatch ("Sizes of nested arrays do not match"))
    | .plain _ => checkNestedGo seen rest

/-- Block::checkNestedArraysOffsets. -/
def Block.checkNestedArraysOffsets (b : Block) : Except BlockError Unit :=
  checkNestedGo [] b.data

/-- Loop of Block::optimizeNestedArraysOffsets: as the check, but on success a
later group member's offsets column is re-pointed at the first member's
(`column_array->getOffsetsColumn() = it->second->getOffsetsColumn()`), so it
takes over both the storage identity and the offsets values; `seen` keeps the
first member's storage id and offsets. -/
def optimizeNestedGo (seen : List (String × (Nat × List Nat))) :
    List (Nat × ColumnWithNameAndType) → Except BlockError (List (Nat × ColumnWithNameAndType))
  | [] => .ok []
  | x :: rest =>
    match x.2.column with
    | .array sid offsets =>
      let gname := extractNestedTableName x.2.name
      match assocFind seen gname with
      | none =>
        (optimizeNestedGo (assocSet seen gname (sid, offsets)) rest).map (fun r => x :: r)
      | some first =>
        if first.2 = offsets then
          (optimizeNestedGo seen rest).map (fun r =>
            (x.1, { x.2 with column := .array first.1 first.2 }) :: r)
        else .error (.sizesMismatch ("Sizes of nested arrays do not match"))
    | .plain _ => (optimizeNestedGo seen rest).map (fun r => x :: r)

/-- Block::optimizeNestedArraysOffsets (the mutation is in place: node ids and
both indexes are unchanged). -/
def Block.optimizeNestedArraysOffsets (b : Block) : Except BlockError Block :=
  (optimizeNestedGo [] b.data).map (fun d => { b with data := d })

/-- Modulus of `UInt64` / `size_t` arithmetic. -/
def w64 : Nat := 2 ^ 64

/-- Reinterpretation `static_cast<Int64>(x)` of a `UInt64` value (inputs are
assumed reduced, i.e. `< 2^64`, as they are for every concrete use below). -/
def toInt64 (n : Nat) : Int :=
  if n < 2 ^ 63 then (n : Int) else (n : Int) - (w64 : Int)

/-- Configured thresholds (zero = disabled).  The two `Poco::Timespan` fields
are stored as their microsecond counts (`totalMicroseconds`); `totalSeconds`
of a timespan is its microsecond count divided by 1000000 (integer division). -/
structure ExecutionSpeedLimits where
  min_execution_speed : Nat
  max_execution_speed : Nat
  min_execution_speed_bytes : Nat
  max_execution_speed_bytes : Nat
  max_execution_time_microseconds : Nat
  timeout_before_checking_execution_speed_microseconds : Nat
deriving DecidableEq, Inhabited

/-- Error of the speed limiter (`ErrorCodes::TOO_SLOW`); the tag records which
of the three checks threw (1 = min rows rate, 2 = min bytes rate,
3 = estimated execution time). -/
inductive SpeedLimitError
  | tooSlow (which : Nat)
deriving DecidableEq

/-- File-static limitProgressingSpeed.  Returns the sleeps performed (in call
order) and the new value of the `ThrottlerSleepMicroseconds` profile counter.
`total_progress_size * 1000000` is `UInt64` arithmetic, hence the `% w64`. -/
def limitProgressingSpeed (total_progress_size max_speed_in_seconds
    total_elapsed_microseconds throttler_sleep_counter : Nat) : List Nat × Nat :=
  let desired_microseconds := total_progress_size * 1000000 % w64 / max_speed_in_seconds
  if desired_microseconds > total_elapsed_microseconds then
    let sleep_microseconds := min 1000000 (desired_microseconds - total_elapsed_microseconds)
    ([sleep_microseconds], throttler_sleep_counter + sleep_microseconds)
  else ([], throttler_sleep_counter)

/-- ExecutionSpeedLimits::throttle.  Arguments are the cumulative progress
counters; `throttler_sleep_counter` is the calling thread's
`ProfileEvents::ThrottlerSleepMicroseconds` counter (all `< 2^64`).  The
result carries the sleeps performed this call and the new counter value.
The `double` expressions (`elapsed_seconds` and the rates) are modelled
exactly over `ℚ`; in the branch where the source's `UInt64` subtraction
`total_elapsed_microseconds - throttler_sleep_microseconds` wraps around, the
wrapped value is used exactly as well. -/
def ExecutionSpeedLimits.throttle (l : ExecutionSpeedLimits)
    (read_rows read_bytes total_rows total_elapsed_microseconds
      throttler_sleep_counter : Nat) :
    Except SpeedLimitError (List Nat × Nat) :=
  if (l.min_execution_speed ≠ 0 ∨ l.max_execution_speed ≠ 0 ∨
      l.min_execution_speed_bytes ≠ 0 ∨ l.max_execution_speed_bytes ≠ 0 ∨
      (total_rows ≠ 0 ∧ l.timeout_before_checking_execution_speed_microseconds ≠ 0)) ∧
     toInt64 total_elapsed_microseconds >
       (l.timeout_before_checking_execution_speed_microseconds : Int) then
    let throttler_sleep_microseconds := throttler_sleep_counter
    let elapsed_seconds : ℚ :=
      if throttler_sleep_microseconds > total_elapsed_microseconds then
        (((total_elapsed_microseconds + w64 - throttler_sleep_microseconds) % w64 : Nat) : ℚ)
          / 1000000
      else 0
    if elapsed_seconds > 0 then
      if l.min_execution_speed ≠ 0 ∧
         (read_rows : ℚ) / elapsed_seconds < (l.min_execution_speed : ℚ) then
        .error (.tooSlow 1)
      else if l.min_execution_speed_bytes ≠ 0 ∧
         (read_bytes : ℚ) / elapsed_seconds < (l.min_execution_speed_bytes : ℚ) then
        .error (.tooSlow 2)
      else if l.max_execution_time_microseconds ≠ 0 ∧ total_rows ≠ 0 ∧ read_rows ≠ 0 ∧
         elapsed_seconds * ((total_rows : ℚ) / (read_rows : ℚ)) >
           ((l.max_execution_time_microseconds / 1000000 : Nat) : ℚ) then
        .error (.tooSlow 3)
      else
        let r1 := if l.max_execution_speed ≠ 0 ∧
            (read_rows : ℚ) / elapsed_seconds ≥ (l.max_execution_speed : ℚ) then
          limitProgressingSpeed read_rows l.max_execution_speed
            total_elapsed_microseconds throttler_sleep_counter
          else ([], throttler_sleep_counter)
        let r2 := if l.max_execution_speed_bytes ≠ 0 ∧
            (read_bytes : ℚ) / elapsed_seconds ≥ (l.max_execution_speed_bytes : ℚ) then
          limitProgressingSpeed read_bytes l.max_execution_speed_bytes
            total_elapsed_microseconds r1.2
          else ([], r1.2)
        .ok (r1.1 ++ r2.1, r2.2)
    else .ok ([], throttler_sleep_counter)
  else .ok ([], throttler_sleep_counter)

/-! Concrete blocks and elements used by witnesses and counterexamples. -/

/-- An Int32 element named "a" with 5 rows. -/
def elemA : ColumnWithNameAndType := ⟨.plain 5, ⟨"Int32", true, false⟩, "a"⟩

/-- An Int32 element named "b" with 5 rows. -/
def elemB : ColumnWithNameAndType := ⟨.plain 5, ⟨"Int32", true, false⟩, "b"⟩

/-- An Int32 element named "c" with 5 rows. -/
def elemC : ColumnWithNameAndType := ⟨.plain 5, ⟨"Int32", true, false⟩, "c"⟩

/-- An Int32 element named "mid". -/
def elemMid : ColumnWithNameAndType := ⟨.plain 5, ⟨"Int32", true, false⟩, "mid"⟩

/-- The block with columns `["a", "b", "c"]`. -/
def blockABC : Block := ((Block.empty.insert elemA).insert elemB).insert elemC

/-- Speed limits with only `min_execution_speed = 1000` rows/sec configured and
no grace period. -/
def limitsMinSpeed : ExecutionSpeedLimits := ⟨1000, 0, 0, 0, 0, 0⟩

/-- Speed limits with only `max_execution_speed = 100` rows/sec configured and
no grace period. -/
def limitsMaxSpeed : ExecutionSpeedLimits := ⟨0, 100, 0, 0, 0, 0⟩

/-- C1: the claim states that with `min_execution_speed = 1000` rows/sec and no
grace period, a call reporting 100 cumulative rows after 2 elapsed seconds with
no throttler sleep recorded raises TooSlow.  The code does not: the comparison
guarding the elapsed-seconds correction is inverted
(`throttler_sleep_microseconds > total_elapsed_microseconds` instead of the
converse), so with sleep counter 0 the corrected `elapsed_seconds` stays 0, the
`elapsed_seconds > 0` guard fails, no check runs, and the call returns normally
with no sleep and an unchanged counter — contradicting the claim, the spec, and
the source's own comment that sleeps merely must "not count". -/
theorem claim_C1_code_behaviour :
    limitsMinSpeed.throttle 100 0 0 2000000 0 = .ok ([], 0) := by decide

/-- C2: the claim states that every call passing the gate computes its checks
against `(total elapsed - throttler sleep)` seconds and skips them only when
that corrected time is ≤ 0.  The code has the guard inverted: at the recorded
input the gate passes and the corrected elapsed time is 1.999 seconds > 0 (the
min-speed check would measure ≈ 50 rows/sec < 1000 and throw), yet the call
performs no check at all and returns normally. -/
theorem claim_C2_code_behaviour :
    limitsMinSpeed.throttle 100 0 0 2000000 1000 = .ok ([], 1000) ∧
      (0 : ℚ) < ((2000000 : ℚ) - 1000) / 1000000 := by
  constructor
  · decide
  · norm_num

/-- C3: the claim states that with `max_execution_speed = 100` rows/sec, a call
reporting 1000 rows after 1 elapsed second induces a sleep (of
`read_rows * 1000000 / max_execution_speed - elapsed`, capped at one second)
and increments the throttler counter by the slept amount.  Because of the same
inverted guard the code never reaches the max-speed branch at this input: it
performs no sleep and leaves the counter unchanged, although the helper
`limitProgressingSpeed` — had it been reached — would have slept exactly the
capped second and incremented the counter by it. -/
theorem claim_C3_code_behaviour :
    limitsMaxSpeed.throttle 1000 0 0 1000000 0 = .ok ([], 0) ∧
      limitProgressingSpeed 1000 100 1000000 0 = ([1000000], 1000000) := by
  constructor
  · decide
  · decide

/-- Characterization of the anonymous-namespace compatibility helper. -/
theorem typesAreCompatible_iff (lhs rhs : DataType) :
    typesAreCompatible lhs rhs = true ↔
      ((lhs.behavesAsNumber = true ∧ rhs.behavesAsNumber = true) ∨
       (lhs.behavesAsString = true ∧ rhs.behavesAsString = true) ∨
       lhs.getName = rhs.getName) := by
  unfold typesAreCompatible
  split_ifs with h1 h2 h3 <;>
    simp_all [Bool.and_eq_true, beq_iff_eq]

/-- A single-column block `(x : Int32)`. -/
def blockXInt32 : Block := Block.empty.insert ⟨.plain 0, ⟨"Int32", true, false⟩, "x"⟩

/-- A single-column block `(x : Int64)`. -/
def blockXInt64 : Block := Block.empty.insert ⟨.plain 0, ⟨"Int64", true, false⟩, "x"⟩

/-- A single-column block `(x : String)`. -/
def blockXString : Block := Block.empty.insert ⟨.plain 0, ⟨"String", false, true⟩, "x"⟩

/-- C7: `blocksHaveEqualStructure` holds exactly when the column counts agree
and the type names match exactly at every position;
`blocksHaveCompatibleStructure` holds exactly when the column counts agree and
at every position both types behave as number, or both behave as string, or
the type names match exactly.  Consequently `(x : Int32)` vs `(x : Int64)` is
compatible-equal but not exact-equal, and vs `(x : String)` is neither. -/
theorem claim_C7 :
    (∀ lhs rhs : Block,
      (blocksHaveEqualStructure lhs rhs = true ↔
        (lhs.columns = rhs.columns ∧
          ∀ i, i < lhs.columns → (lhs.typeAt i).getName = (rhs.typeAt i).getName)) ∧
      (blocksHaveCompatibleStructure lhs rhs = true ↔
        (lhs.columns = rhs.columns ∧
          ∀ i, i < lhs.columns →
            (((lhs.typeAt i).behavesAsNumber = true ∧ (rhs.typeAt i).behavesAsNumber = true) ∨
             ((lhs.typeAt i).behavesAsString = true ∧ (rhs.typeAt i).behavesAsString = true) ∨
             (lhs.typeAt i).getName = (rhs.typeAt i).getName)))) ∧
    blocksHaveEqualStructure blockXInt32 blockXInt64 = false ∧
    blocksHaveCompatibleStructure blockXInt32 blockXInt64 = true ∧
    blocksHaveEqualStructure blockXInt32 blockXString = false ∧
    blocksHaveCompatibleStructure blockXInt32 blockXString = false := by
  refine ⟨fun lhs rhs => ⟨?_, ?_⟩, by decide, by decide, by decide, by decide⟩
  · unfold blocksHaveEqualStructure
    by_cases h : rhs.columns = lhs.columns
    · simp [h, List.all_eq_true, List.mem_range]
    · simp only [ne_eq, h, not_false_eq_true, if_pos]
      constructor
      · intro hfalse
        exact absurd hfalse (by decide)
      · intro hc
        exact absurd hc.1.symm h
  · unfold blocksHaveCompatibleStructure
    by_cases h : rhs.columns = lhs.columns
    · simp [h, List.all_eq_true, List.mem_range, typesAreCompatible_iff]
    · simp only [ne_eq, h, not_false_eq_true, if_pos]
      constructor
      · intro hfalse
        exact absurd hfalse (by decide)
      · intro hc
        exact absurd hc.1.symm h

/-- Witness for C7: the equal-structure characterization evaluated on the
concrete blocks `(x : Int32)` and `(x : Int32)` itself. -/
theorem claim_C7_witness :
    blocksHaveEqualStructure blockXInt32 blockXInt32 = true :=
  ((claim_C7.1 blockXInt32 blockXInt32).1).mpr (by decide)

/-- Sizes of the columns of a block, in order. -/
def Block.sizes (b : Block) : List Nat := b.data.map (fun x => x.2.column.size)

/-- Scan predicate for C5 as amended, following the spec words: some column
whose size is non-zero is immediately followed (in block order) by a column of
a different size; `prev` is the previous column's size, initially 0. -/
def hasAdjacentSizeMismatch (prev : Nat) : List Nat → Bool
  | [] => false
  | s :: rest => (decide (prev ≠ 0) && decide (s ≠ prev)) || hasAdjacentSizeMismatch s rest

theorem rowsGo_error_of_mismatch (fn : String) (res : Nat)
    (l : List (Nat × ColumnWithNameAndType))
    (h : hasAdjacentSizeMismatch res (l.map (fun x => x.2.column.size)) = true) :
    ∃ m, rowsGo fn res l = .error (.sizesMismatch m) := by
  induction l generalizing res with
  | nil => simp [hasAdjacentSizeMismatch] at h
  | cons x rest ih =>
    simp only [List.map_cons, hasAdjacentSizeMismatch, Bool.or_eq_true, Bool.and_eq_true,
      decide_eq_true_eq] at h
    rcases h with h | h
    · exact ⟨("Sizes of columns doesn\x27t match: ") ++ fn ++ (": ") ++ toString res
        ++ (", ") ++ x.2.name ++ (": ") ++ toString x.2.column.size,
        by simp only [rowsGo, if_pos (show res ≠ 0 ∧ x.2.column.size ≠ res from ⟨h.1, h.2⟩)]⟩
    · rcases ih _ h with ⟨m, hm⟩
      by_cases hc : res ≠ 0 ∧ x.2.column.size ≠ res
      · exact ⟨("Sizes of columns doesn\x27t match: ") ++ fn ++ (": ") ++ toString res
          ++ (", ") ++ x.2.name ++ (": ") ++ toString x.2.column.size,
          by simp only [rowsGo, if_pos hc]⟩
      · exact ⟨m, by simpa [rowsGo, if_neg hc] using hm⟩

theorem rowsGo_ok_of_no_mismatch (fn : String) (res : Nat)
    (l : List (Nat × ColumnWithNameAndType))
    (h : hasAdjacentSizeMismatch res (l.map (fun x => x.2.column.size)) = false) :
    rowsGo fn res l = .ok ((l.map (fun x => x.2.column.size)).getLastD res) := by
  induction l generalizing res with
  | nil => simp [rowsGo]
  | cons x rest ih =>
    simp only [List.map_cons, hasAdjacentSizeMismatch, Bool.or_eq_false_iff] at h
    have hc : ¬(res ≠ 0 ∧ x.2.column.size ≠ res) := by
      intro hcon
      have := h.1
      simp [hcon.1, hcon.2] at this
    simp only [rowsGo, if_neg hc, List.map_cons, List.getLastD_cons]
    exact ih _ h.2

/-- A block whose columns have sizes `[5, 0]`. -/
def blockSizes50 : Block :=
  (Block.empty.insert elemA).insert ⟨.plain 0, ⟨"Int32", true, false⟩, "b"⟩

/-- A block whose columns have sizes `[5, 5, 7]` (names a, b, c). -/
def blockSizes557 : Block :=
  ((Block.empty.insert elemA).insert elemB).insert ⟨.plain 7, ⟨"Int32", true, false⟩, "c"⟩

/-- C5 counterexample: on a block whose column sizes are `[5, 0]` only one
distinct non-zero size is ever observed, so the claim ("fails exactly when two
differing non-zero sizes are observed") predicts no failure — yet `rows()`
fails with SizesMismatch, because the scan compares each size to the previous
one and 0 ≠ 5. -/
theorem claim_C5_counterexample :
    blockSizes50.sizes.filter (fun s => s ≠ 0) = [5] ∧
    blockSizes50.rows =
      .error (.sizesMismatch (("Sizes of columns doesn\x27t match: a: 5, b: 0"))) := by
  constructor
  · decide
  · decide

/-- C5 as amended: `rows()` fails with SizesMismatch exactly when some column
whose size is non-zero is immediately followed in block order by a column of a
different size; otherwise it returns the size of the last column (0 for an
empty block — the common row count whenever sizes are uniform).  In
particular sizes `[5, 5, 5]` give `rows() = 5` and `[5, 5, 7]` fail with
SizesMismatch naming both offending columns. -/
theorem claim_C5 :
    (∀ b : Block,
      ((∃ m, b.rows = .error (.sizesMismatch m)) ↔
        hasAdjacentSizeMismatch 0 b.sizes = true) ∧
      (hasAdjacentSizeMismatch 0 b.sizes = false → b.rows = .ok (b.sizes.getLastD 0))) ∧
    blockABC.rows = .ok 5 ∧
    blockSizes557.rows =
      .error (.sizesMismatch (("Sizes of columns doesn\x27t match: a: 5, c: 7"))) := by
  refine ⟨fun b => ⟨⟨?_, ?_⟩, ?_⟩, by decide, by decide⟩
  · intro hex
    rcases hex with ⟨m, hm⟩
    by_contra hbad
    have hfalse : hasAdjacentSizeMismatch 0 b.sizes = false := by
      cases hv : hasAdjacentSizeMismatch 0 b.sizes
      · rfl
      · exact absurd hv hbad
    have hok := rowsGo_ok_of_no_mismatch
      (((b.data.head?).map (fun x => x.2.name)).getD ("")) 0 b.data hfalse
    rw [Block.rows, hok] at hm
    exact Except.noConfusion hm
  · intro hbad
    exact rowsGo_error_of_mismatch _ 0 b.data hbad
  · intro hok
    exact rowsGo_ok_of_no_mismatch
      (((b.data.head?).map (fun x => x.2.name)).getD ("")) 0 b.data hok

/-- Witness for C5: the scan of `blockABC` (sizes `[5, 5, 5]`) reports no
mismatch and `rows()` returns the last (= common) size. -/
theorem claim_C5_witness :
    blockABC.rows = .ok (blockABC.sizes.getLastD 0) :=
  (claim_C5.1 blockABC).2 (by decide)

/-- Contiguous-subsequence test on character lists, used to express "the error
message includes ...". -/
def listContainsSeq (l p : List Char) : Bool :=
  l.tails.any (fun t => p.isPrefixOf t)

/-- Substring containment of `pat` in `s`. -/
def strContains (s pat : String) : Bool :=
  listContainsSeq s.data pat.data

theorem listContainsSeq_append_self (a b : List Char) :
    listContainsSeq (a ++ b) b = true := by
  unfold listContainsSeq
  rw [List.any_eq_true]
  exact ⟨b, (List.mem_tails b (a ++ b)).mpr (List.suffix_append a b),
    List.isPrefixOf_iff_prefix.mpr (List.prefix_refl b)⟩

theorem strContains_append_self (a b : String) :
    strContains (a ++ b) b = true := by
  unfold strContains
  rw [String.data_append]
  exact listContainsSeq_append_self a.data b.data

/-- A block with a single column named "zzz". -/
def blockZZZ : Block := Block.empty.insert ⟨.plain 1, ⟨"Int32", true, false⟩, "zzz"⟩

/-- C8 counterexample: the claim requires every ColumnNotFound message of
getByName / getPositionByName / erase(name) to include a dump of the names of
the columns present.  `erase("q")` on a block whose only column is "zzz" fails
with ColumnNotFound whose message is exactly
"No such name in Block::erase(): 'q'" — the dump "zzz" of present names does
not occur in it. -/
theorem claim_C8_counterexample :
    blockZZZ.has ("q") = false ∧
    blockZZZ.eraseByName ("q") =
      .error (.columnNotFound (("No such name in Block::erase(): \x27q\x27"))) ∧
    blockZZZ.dumpNames = ("zzz") ∧
    strContains ("No such name in Block::erase(): \x27q\x27") (blockZZZ.dumpNames) = false := by
  refine ⟨by decide, by decide, by decide, by decide⟩

/-- C8 as amended: for every block and name whose lookup misses
(`has(name) = false`), getByName, getPositionByName and erase(name) all fail
with ColumnNotFound; the messages of getByName and getPositionByName include
the full dump of the names of the columns present, while the message of
erase(name) reports only the requested name. -/
theorem claim_C8 (b : Block) (name : String) (h : b.has name = false) :
    b.getByName name = .error (.columnNotFound (("Not found column ") ++ name
      ++ (" in block. There are only columns: ") ++ b.dumpNames)) ∧
    strContains (("Not found column ") ++ name
      ++ (" in block. There are only columns: ") ++ b.dumpNames) b.dumpNames = true ∧
    b.getPositionByName name = .error (.columnNotFound (("Not found column ") ++ name
      ++ (" in block. There are only columns: ") ++ b.dumpNames)) ∧
    b.eraseByName name =
      .error (.columnNotFound (("No such name in Block::erase(): \x27") ++ name ++ ("\x27"))) := by
  have hnone : assocFind b.index_by_name name = none := by
    unfold Block.has at h
    cases hv : assocFind b.index_by_name name
    · rfl
    · rw [hv] at h
      exact absurd h (by simp)
  refine ⟨?_, ?_, ?_, ?_⟩
  · unfold Block.getByName
    rw [hnone]
  · exact strContains_append_self _ _
  · unfold Block.getPositionByName
    rw [hnone]
  · unfold Block.eraseByName
    rw [hnone]

/-- Witness for C8: the amended statement instantiated on the block whose only
column is "zzz" and the missing name "q". -/
theorem claim_C8_witness :
    blockZZZ.getByName ("q") = .error (.columnNotFound (("Not found column ") ++ ("q")
      ++ (" in block. There are only columns: ") ++ blockZZZ.dumpNames)) ∧
    strContains (("Not found column ") ++ ("q")
      ++ (" in block. There are only columns: ") ++ blockZZZ.dumpNames)
      blockZZZ.dumpNames = true ∧
    blockZZZ.getPositionByName ("q") = .error (.columnNotFound (("Not found column ") ++ ("q")
      ++ (" in block. There are only columns: ") ++ blockZZZ.dumpNames)) ∧
    blockZZZ.eraseByName ("q") =
      .error (.columnNotFound (("No such name in Block::erase(): \x27") ++ ("q") ++ ("\x27"))) :=
  claim_C8 blockZZZ ("q") (by decide)

theorem map_insertIdx {α β : Type} (f : α → β) :
    ∀ (p : Nat) (l : List α) (x : α),
      (l.insertIdx p x).map f = (l.map f).insertIdx p (f x)
  | 0, l, x => by simp [List.insertIdx_zero]
  | p + 1, [], x => by simp [List.insertIdx_succ_nil]
  | p + 1, y :: ys, x => by
    simp only [List.insertIdx_succ_cons, List.map_cons]
    rw [map_insertIdx f p ys x]

theorem insertIdx_perm {α : Type} :
    ∀ (p : Nat) (l : List α) (x : α), p ≤ l.length → (l.insertIdx p x).Perm (x :: l)
  | 0, l, x, _ => by simp [List.insertIdx_zero]
  | p + 1, [], x, h => by simp at h
  | p + 1, y :: ys, x, h => by
    simp only [List.insertIdx_succ_cons]
    exact ((insertIdx_perm p ys x (Nat.le_of_succ_le_succ h)).cons y).trans
      (List.Perm.swap x y ys)

theorem insertBeforeId_eq_insertIdx :
    ∀ (l : List (Nat × ColumnWithNameAndType)) (p : Nat) (x : Nat × ColumnWithNameAndType),
      p < l.length → (l.map Prod.fst).Nodup →
      insertBeforeId l ((l.map Prod.fst).getD p 0) x = l.insertIdx p x
  | [], p, x, hp, _ => absurd hp (by simp)
  | y :: ys, 0, x, hp, hnd => by
    simp [insertBeforeId, List.insertIdx_zero]
  | y :: ys, p + 1, x, hp, hnd => by
    have hq : p < ys.length := Nat.lt_of_succ_lt_succ (by simpa using hp)
    simp only [List.map_cons, List.nodup_cons] at hnd
    have hanchor : (ys.map Prod.fst).getD p 0 ∈ ys.map Prod.fst := by
      have hlen : p < (ys.map Prod.fst).length := by simpa using hq
      rw [List.getD_eq_getElem _ 0 hlen]
      exact List.getElem_mem hlen
    have hne : y.1 ≠ (ys.map Prod.fst).getD p 0 := by
      intro he
      rw [he] at hnd
      exact hnd.1 hanchor
    simp only [List.map_cons, List.getD_cons_succ, insertBeforeId, if_neg hne,
      List.insertIdx_succ_cons]
    rw [insertBeforeId_eq_insertIdx ys p x hq hnd.2]

/-- Consistency of the position index with the data sequence, distinctness of
the node ids, and freshness of `next_id` — maintained by every operation of
the source (`index_by_position` enumerates the list nodes in order). -/
def Block.WFpos (b : Block) : Prop :=
  b.index_by_position = b.data.map Prod.fst ∧
  (b.data.map Prod.fst).Nodup ∧
  ∀ id ∈ b.data.map Prod.fst, id < b.next_id

instance (b : Block) : Decidable b.WFpos := by
  unfold Block.WFpos
  infer_instance

/-- C4: `insert(position, element)` fails with PositionOutOfBound exactly when
`position > size`; for `position = size` it appends, for `position < size` it
places the element immediately before the element previously at `position`
(all later elements shift up by one, earlier ones keep their position) — i.e.
the element sequence becomes `insertIdx position element` of the old one and
the column count grows by one.  On the concrete example, inserting "mid" at
position 1 into `["a", "b", "c"]` yields order `["a", "mid", "b", "c"]` with
`getPositionByName` correct for all four names. -/
theorem claim_C4 :
    (∀ (b : Block) (p : Nat) (e : ColumnWithNameAndType), b.WFpos →
      ((∃ m, b.insertAt p e = .error (.positionOutOfBound m)) ↔ p > b.columns) ∧
      (p ≤ b.columns →
        (b.insertAt p e).map (fun b' => (b'.data.map Prod.snd, b'.columns)) =
          .ok ((b.data.map Prod.snd).insertIdx p e, b.columns + 1))) ∧
    (blockABC.insertAt 1 elemMid).map (fun b' => b'.data.map (fun x => x.2.name)) =
      .ok (["a", "mid", "b", "c"]) ∧
    (blockABC.insertAt 1 elemMid).map (fun b' =>
        [b'.getPositionByName ("a"), b'.getPositionByName ("mid"),
         b'.getPositionByName ("b"), b'.getPositionByName ("c")]) =
      .ok ([.ok 0, .ok 1, .ok 2, .ok 3]) := by
  refine ⟨fun b p e hwf => ⟨⟨?_, ?_⟩, ?_⟩, by decide, by decide⟩
  · rintro ⟨m, hm⟩
    by_contra hle
    have hple : p ≤ b.index_by_position.length := by
      rw [hwf.1, List.length_map]
      exact Nat.le_of_not_lt hle
    unfold Block.insertAt at hm
    rcases Nat.lt_or_ge p b.index_by_position.length with hlt | hge
    · rw [if_neg (Nat.not_lt.mpr hple), if_neg (Nat.ne_of_lt hlt)] at hm
      exact Except.noConfusion hm
    · have heq : p = b.index_by_position.length := Nat.le_antisymm hple hge
      rw [if_neg (Nat.not_lt.mpr hple), if_pos heq] at hm
      exact Except.noConfusion hm
  · intro hgt
    have hgt' : p > b.index_by_position.length := by
      rw [hwf.1, List.length_map]
      exact hgt
    exact ⟨_, by unfold Block.insertAt; rw [if_pos hgt']⟩
  · intro hple
    have hple' : p ≤ b.index_by_position.length := by
      rw [hwf.1, List.length_map]
      exact hple
    unfold Block.insertAt
    rw [if_neg (Nat.not_lt.mpr hple')]
    rcases Nat.lt_or_ge p b.index_by_position.length with hlt | hge
    · rw [if_neg (Nat.ne_of_lt hlt)]
      have hlt' : p < b.data.length := by
        rw [hwf.1, List.length_map] at hlt
        exact hlt
      rw [hwf.1]
      rw [insertBeforeId_eq_insertIdx b.data p (b.next_id, e) hlt' hwf.2.1]
      simp only [Except.map, Block.columns, Except.ok.injEq, Prod.mk.injEq]
      exact ⟨map_insertIdx Prod.snd p b.data (b.next_id, e),
        List.length_insertIdx p b.data (Nat.le_of_lt hlt')⟩
    · have heq : p = b.index_by_position.length := Nat.le_antisymm hple' hge
      have hpd : p = b.data.length := by rw [heq, hwf.1, List.length_map]
      have hins : List.insertIdx p e (List.map Prod.snd b.data) =
          List.map Prod.snd b.data ++ [e] := by
        rw [hpd, ← List.length_map b.data Prod.snd]
        exact List.insertIdx_length_self _ _
      rw [if_pos heq]
      simp [Except.map, Block.insert, Block.columns, hins]

/-- Witness for C4: the general part instantiated at `blockABC`, position 1
and the element "mid". -/
theorem claim_C4_witness :
    (blockABC.insertAt 1 elemMid).map (fun b' => (b'.data.map Prod.snd, b'.columns)) =
      .ok ((blockABC.data.map Prod.snd).insertIdx 1 elemMid, blockABC.columns + 1) :=
  (claim_C4.1 blockABC 1 elemMid (by decide)).2 (by decide)

/-- Reachability of a block from the empty block by the mutating operations
(append, insert at position, erase by position, erase by name), keeping only
successful results. -/
inductive Reaches : Block → Prop
  | empty : Reaches Block.empty
  | insert {b : Block} (e : ColumnWithNameAndType) : Reaches b → Reaches (b.insert e)
  | insertAt {b b' : Block} (p : Nat) (e : ColumnWithNameAndType) :
      Reaches b → b.insertAt p e = .ok b' → Reaches b'
  | erase {b b' : Block} (p : Nat) : Reaches b → b.erase p = .ok b' → Reaches b'
  | eraseByName {b b' : Block} (n : String) : Reaches b → b.eraseByName n = .ok b' → Reaches b'

/-- The block obtained by appending the element "a" twice and erasing
position 0: its data still holds a column named "a", but the name index is
empty because `erase(0)` removed the single map entry for "a" (which pointed
at the second occurrence). -/
def blockDesync : Block := ⟨[(1, elemA)], [1], [], 2⟩

theorem reaches_blockDesync : Reaches blockDesync := by
  refine Reaches.erase 0 (Reaches.insert elemA (Reaches.insert elemA Reaches.empty)) ?_
  decide

/-- C9 counterexample: `blockDesync` is reachable and has a column named "a",
yet `insertUnique` of another element named "a" is not a no-op — it appends a
duplicate, because `insertUnique` consults the (desynchronised) name index
rather than the data sequence. -/
theorem claim_C9_counterexample :
    Reaches blockDesync ∧
    blockDesync.data.map (fun x => x.2.name) = [("a")] ∧
    blockDesync.insertUnique elemA ≠ blockDesync := by
  refine ⟨reaches_blockDesync, by decide, by decide⟩

/-- C9 as amended: presence is judged by the name index (`has`): if
`has(e.name)` is false, `insertUnique(e)` has exactly the effect of
`insert(e)` (append at the end); if `has(e.name)` is true it leaves the block
entirely unchanged and does not fail. -/
theorem claim_C9 (b : Block) (e : ColumnWithNameAndType) :
    (b.has e.name = false → b.insertUnique e = b.insert e) ∧
    (b.has e.name = true → b.insertUnique e = b) := by
  unfold Block.has Block.insertUnique
  cases hv : assocFind b.index_by_name e.name with
  | none => simp [hv]
  | some it => simp [hv]

/-- Witness for C9: on `blockABC` (no column named "mid") `insertUnique` of
"mid" appends. -/
theorem claim_C9_witness :
    blockABC.insertUnique elemMid = blockABC.insert elemMid :=
  (claim_C9 blockABC elemMid).1 (by decide)

theorem getD_map_fst (data : List (Nat × ColumnWithNameAndType)) (p : Nat)
    (h : p < data.length) :
    (data.map Prod.fst).getD p 0 = (data.getD p (0, default)).1 := by
  have h' : p < (data.map Prod.fst).length := by simpa using h
  rw [List.getD_eq_getElem _ _ h', List.getD_eq_getElem _ _ h, List.getElem_map]

theorem map_eraseIdx {α β : Type} (f : α → β) :
    ∀ (p : Nat) (l : List α), (l.eraseIdx p).map f = (l.map f).eraseIdx p
  | _, [] => by simp
  | 0, y :: ys => by simp
  | p + 1, y :: ys => by
    simp only [List.eraseIdx_cons_succ, List.map_cons]
    rw [map_eraseIdx f p ys]

theorem mem_eraseIdx_of_ne {α : Type} (d : α) :
    ∀ (l : List α) (p : Nat) (x : α), p < l.length → x ∈ l → x ≠ l.getD p d →
      x ∈ l.eraseIdx p
  | [], p, x, hp, _, _ => absurd hp (by simp)
  | y :: ys, 0, x, hp, hx, hne => by
    simp only [List.getD_cons_zero] at hne
    rcases List.mem_cons.mp hx with h | h
    · exact absurd h hne
    · simpa using h
  | y :: ys, p + 1, x, hp, hx, hne => by
    simp only [List.getD_cons_succ] at hne
    rw [List.eraseIdx_cons_succ]
    rcases List.mem_cons.mp hx with h | h
    · exact List.mem_cons.mpr (Or.inl h)
    · exact List.mem_cons.mpr (Or.inr (mem_eraseIdx_of_ne d ys p x
        (Nat.lt_of_succ_lt_succ (by simpa using hp)) h hne))

theorem not_mem_eraseIdx_self {α : Type} (d : α) :
    ∀ (l : List α) (p : Nat), p < l.length → l.Nodup → l.getD p d ∉ l.eraseIdx p
  | [], p, hp, _ => absurd hp (by simp)
  | y :: ys, 0, hp, hnd => by
    simp only [List.getD_cons_zero, List.eraseIdx_cons_zero]
    exact (List.nodup_cons.mp hnd).1
  | y :: ys, p + 1, hp, hnd => by
    simp only [List.getD_cons_succ, List.eraseIdx_cons_succ]
    intro hmem
    have hq : p < ys.length := Nat.lt_of_succ_lt_succ (by simpa using hp)
    rcases List.mem_cons.mp hmem with h | h
    · have hmem2 : ys.getD p d ∈ ys := by
        rw [List.getD_eq_getElem _ _ hq]
        exact List.getElem_mem hq
      rw [h] at hmem2
      exact (List.nodup_cons.mp hnd).1 hmem2
    · exact not_mem_eraseIdx_self d ys p hq (List.nodup_cons.mp hnd).2 h

theorem findId_spec :
    ∀ (data : List (Nat × ColumnWithNameAndType)) (id : Nat) (e : ColumnWithNameAndType),
      (data.map Prod.fst).Nodup → (id, e) ∈ data →
      data.find? (fun x => x.1 == id) = some (id, e) ∧
      idPosition data id < data.length ∧
      data.getD (idPosition data id) (0, default) = (id, e)
  | [], id, e, _, hmem => absurd hmem (by simp)
  | y :: ys, id, e, hnd, hmem => by
    simp only [List.map_cons, List.nodup_cons] at hnd
    by_cases hy : y.1 = id
    · have hye : y = (id, e) := by
        rcases List.mem_cons.mp hmem with h | h
        · exact h.symm
        · exact absurd (by rw [hy]; exact List.mem_map.mpr ⟨(id, e), h, rfl⟩) hnd.1
      have hb : (y.1 == id) = true := by
        rw [beq_iff_eq]
        exact hy
      refine ⟨?_, ?_, ?_⟩
      · rw [hye]
        exact List.find?_cons_of_pos _ (by simp)
      · unfold idPosition
        rw [List.findIdx_cons, hb]
        simp only [cond_true, List.length_cons]
        exact Nat.succ_pos _
      · unfold idPosition
        rw [List.findIdx_cons, hb]
        simp only [cond_true, List.getD_cons_zero]
        exact hye
    · have hmem' : (id, e) ∈ ys := by
        rcases List.mem_cons.mp hmem with h | h
        · exact absurd (congrArg Prod.fst h.symm) hy
        · exact h
      have ih := findId_spec ys id e hnd.2 hmem'
      have hb : (y.1 == id) = false := by
        rw [beq_eq_false_iff_ne]
        exact hy
      refine ⟨?_, ?_, ?_⟩
      · rw [List.find?_cons_of_neg _ (by simp [hy])]
        exact ih.1
      · unfold idPosition
        rw [List.findIdx_cons, hb]
        simp only [cond_false, List.length_cons]
        exact Nat.succ_lt_succ ih.2.1
      · unfold idPosition
        rw [List.findIdx_cons, hb]
        simp only [cond_false, List.getD_cons_succ]
        exact ih.2.2

theorem derefId_eq (data : List (Nat × ColumnWithNameAndType)) (id : Nat)
    (e : ColumnWithNameAndType)
    (hnd : (data.map Prod.fst).Nodup) (hmem : (id, e) ∈ data) :
    derefId data id = e := by
  unfold derefId
  rw [(findId_spec data id e hnd hmem).1]
  rfl

theorem idPosition_getD_fst :
    ∀ (data : List (Nat × ColumnWithNameAndType)) (p : Nat),
      p < data.length → (data.map Prod.fst).Nodup →
      idPosition data ((data.map Prod.fst).getD p 0) = p
  | [], p, hp, _ => absurd hp (by simp)
  | y :: ys, 0, hp, hnd => by
    unfold idPosition
    rw [List.findIdx_cons]
    simp
  | y :: ys, p + 1, hp, hnd => by
    have hq : p < ys.length := Nat.lt_of_succ_lt_succ (by simpa using hp)
    simp only [List.map_cons, List.nodup_cons] at hnd
    have hanchor : (ys.map Prod.fst).getD p 0 ∈ ys.map Prod.fst := by
      have hlen : p < (ys.map Prod.fst).length := by simpa using hq
      rw [List.getD_eq_getElem _ 0 hlen]
      exact List.getElem_mem hlen
    have hne : y.1 ≠ (ys.map Prod.fst).getD p 0 := by
      intro he
      rw [he] at hnd
      exact hnd.1 hanchor
    have hb : (y.1 == (ys.map Prod.fst).getD p 0) = false := by
      rw [beq_eq_false_iff_ne]
      exact hne
    have ih := idPosition_getD_fst ys p hq hnd.2
    unfold idPosition at ih ⊢
    simp only [List.map_cons, List.getD_cons_succ]
    rw [List.findIdx_cons, hb]
    simp only [cond_false]
    rw [ih]

theorem eraseById_eq_eraseIdx :
    ∀ (data : List (Nat × ColumnWithNameAndType)) (id : Nat) (e : ColumnWithNameAndType),
      (data.map Prod.fst).Nodup → (id, e) ∈ data →
      eraseById data id = data.eraseIdx (idPosition data id)
  | [], id, e, _, hmem => absurd hmem (by simp)
  | y :: ys, id, e, hnd, hmem => by
    simp only [List.map_cons, List.nodup_cons] at hnd
    by_cases hy : y.1 = id
    · have hb : (y.1 == id) = true := by
        rw [beq_iff_eq]
        exact hy
      unfold idPosition
      rw [List.findIdx_cons, hb]
      simp [eraseById, hy]
    · have hmem' : (id, e) ∈ ys := by
        rcases List.mem_cons.mp hmem with h | h
        · exact absurd (congrArg Prod.fst h.symm) hy
        · exact h
      have hb : (y.1 == id) = false := by
        rw [beq_eq_false_iff_ne]
        exact hy
      have ih := eraseById_eq_eraseIdx ys id e hnd.2 hmem'
      unfold idPosition at ih ⊢
      rw [List.findIdx_cons, hb]
      simp only [cond_false, List.eraseIdx_cons_succ]
      simp [eraseById, hy, ih]

/-- Names of the columns of a block, in order. -/
def Block.names (b : Block) : List String := b.data.map (fun x => x.2.name)

/-- Index-consistency invariant: the position index enumerates the data nodes
in order, node ids are distinct and below `next_id`, names are distinct, and
the name index holds exactly the (name, node) pairs of the data sequence. -/
structure Inv (b : Block) : Prop where
  pos_eq : b.index_by_position = b.data.map Prod.fst
  ids_nodup : (b.data.map Prod.fst).Nodup
  ids_lt : ∀ id ∈ b.data.map Prod.fst, id < b.next_id
  names_nodup : b.names.Nodup
  keys_nodup : (assocKeys b.index_by_name).Nodup
  name_iff : ∀ (n : String) (id : Nat),
    assocFind b.index_by_name n = some id ↔ ∃ e, (id, e) ∈ b.data ∧ e.name = n

theorem Inv_empty : Inv Block.empty := by
  refine ⟨rfl, by simp [Block.empty], by simp [Block.empty], by simp [Block.empty, Block.names],
    by simp [Block.empty, assocKeys], ?_⟩
  intro n id
  simp [Block.empty]

theorem assocFind_eq_none_of_has_false (b : Block) (nm : String)
    (h : b.has nm = false) : assocFind b.index_by_name nm = none := by
  unfold Block.has at h
  cases hv : assocFind b.index_by_name nm
  · rfl
  · rw [hv] at h
    exact absurd h (by simp)

theorem not_mem_names_of_has_false (b : Block) (hInv : Inv b) (nm : String)
    (h : b.has nm = false) : nm ∉ b.names := by
  intro hmem
  rcases List.mem_map.mp hmem with ⟨x, hx, hname⟩
  have hsome : assocFind b.index_by_name nm = some x.1 :=
    (hInv.name_iff nm x.1).mpr ⟨x.2, hx, hname⟩
  rw [assocFind_eq_none_of_has_false b nm h] at hsome
  exact Option.noConfusion hsome

theorem insert_fields (b : Block) (e : ColumnWithNameAndType)
    (data' : List (Nat × ColumnWithNameAndType))
    (hInv : Inv b) (hhas : b.has e.name = false)
    (hperm : data'.Perm ((b.next_id, e) :: b.data)) :
    (data'.map Prod.fst).Nodup ∧
    (∀ id ∈ data'.map Prod.fst, id < b.next_id + 1) ∧
    (data'.map (fun x => x.2.name)).Nodup ∧
    (∀ (n : String) (id : Nat),
      assocFind (assocSet b.index_by_name e.name b.next_id) n = some id ↔
        ∃ e', (id, e') ∈ data' ∧ e'.name = n) := by
  have hfresh : b.next_id ∉ b.data.map Prod.fst := by
    intro hmem
    exact absurd (hInv.ids_lt _ hmem) (Nat.lt_irrefl _)
  have hpermf : (data'.map Prod.fst).Perm (b.next_id :: b.data.map Prod.fst) := by
    simpa using hperm.map Prod.fst
  have hpermn : (data'.map (fun x => x.2.name)).Perm (e.name :: b.names) := by
    simpa [Block.names] using hperm.map (fun x => x.2.name)
  refine ⟨?_, ?_, ?_, ?_⟩
  · rw [hpermf.nodup_iff]
    exact List.nodup_cons.mpr ⟨hfresh, hInv.ids_nodup⟩
  · intro id hid
    rcases List.mem_cons.mp (hpermf.mem_iff.mp hid) with h | h
    · rw [h]
      exact Nat.lt_succ_self _
    · exact Nat.lt_succ_of_lt (hInv.ids_lt _ h)
  · rw [hpermn.nodup_iff]
    exact List.nodup_cons.mpr ⟨not_mem_names_of_has_false b hInv e.name hhas, hInv.names_nodup⟩
  · intro n id
    rw [assocFind_assocSet]
    by_cases hn : e.name = n
    · subst hn
      rw [if_pos rfl]
      constructor
      · intro hsome
        refine ⟨e, ?_, rfl⟩
        rw [hperm.mem_iff]
        exact List.mem_cons.mpr (Or.inl (by rw [Option.some_inj.mp hsome]))
      · rintro ⟨e', hmem, hname⟩
        rcases List.mem_cons.mp (hperm.mem_iff.mp hmem) with h | h
        · rw [(Prod.mk.injEq _ _ _ _).mp h |>.1]
        · exfalso
          have : assocFind b.index_by_name e.name = some id :=
            (hInv.name_iff e.name id).mpr ⟨e', h, hname⟩
          rw [assocFind_eq_none_of_has_false b e.name hhas] at this
          exact Option.noConfusion this
    · rw [if_neg hn, hInv.name_iff n id]
      constructor
      · rintro ⟨e', hmem, hname⟩
        refine ⟨e', ?_, hname⟩
        rw [hperm.mem_iff]
        exact List.mem_cons.mpr (Or.inr hmem)
      · rintro ⟨e', hmem, hname⟩
        rcases List.mem_cons.mp (hperm.mem_iff.mp hmem) with h | h
        · exfalso
          apply hn
          rw [← hname, (Prod.mk.injEq _ _ _ _).mp h |>.2]
        · exact ⟨e', h, hname⟩

theorem Inv_insert (b : Block) (e : ColumnWithNameAndType)
    (hInv : Inv b) (hhas : b.has e.name = false) : Inv (b.insert e) := by
  have hfields := insert_fields b e (b.data ++ [(b.next_id, e)]) hInv hhas
    (List.perm_append_singleton _ _)
  refine ⟨?_, hfields.1, hfields.2.1, hfields.2.2.1, ?_, hfields.2.2.2⟩
  · show b.index_by_position ++ [b.next_id] = (b.data ++ [(b.next_id, e)]).map Prod.fst
    rw [hInv.pos_eq, List.map_append]
    rfl
  · exact assocKeys_assocSet_nodup _ _ _ hInv.keys_nodup

theorem Inv_insertAt (b : Block) (p : Nat) (e : ColumnWithNameAndType) (b' : Block)
    (hInv : Inv b) (hhas : b.has e.name = false)
    (hok : b.insertAt p e = .ok b') : Inv b' := by
  unfold Block.insertAt at hok
  by_cases hgt : p > b.index_by_position.length
  · rw [if_pos hgt] at hok
    exact Except.noConfusion hok
  rw [if_neg hgt] at hok
  by_cases heq : p = b.index_by_position.length
  · rw [if_pos heq] at hok
    rw [← Except.ok.inj hok]
    exact Inv_insert b e hInv hhas
  rw [if_neg heq] at hok
  have hlt : p < b.index_by_position.length :=
    Nat.lt_of_le_of_ne (Nat.le_of_not_lt hgt) heq
  have hlt' : p < b.data.length := by
    rw [hInv.pos_eq, List.length_map] at hlt
    exact hlt
  have hdata : insertBeforeId b.data (b.index_by_position.getD p 0) (b.next_id, e)
      = b.data.insertIdx p (b.next_id, e) := by
    rw [hInv.pos_eq]
    exact insertBeforeId_eq_insertIdx b.data p (b.next_id, e) hlt' hInv.ids_nodup
  have hperm : (b.data.insertIdx p (b.next_id, e)).Perm ((b.next_id, e) :: b.data) :=
    insertIdx_perm p b.data (b.next_id, e) (Nat.le_of_lt hlt')
  have hfields := insert_fields b e (b.data.insertIdx p (b.next_id, e)) hInv hhas hperm
  rw [← Except.ok.inj hok]
  refine ⟨?_, ?_, ?_, ?_, ?_, ?_⟩
  · show b.index_by_position.insertIdx p b.next_id
      = (insertBeforeId b.data (b.index_by_position.getD p 0) (b.next_id, e)).map Prod.fst
    rw [hdata, map_insertIdx, hInv.pos_eq]
  · show ((insertBeforeId b.data (b.index_by_position.getD p 0) (b.next_id, e)).map
      Prod.fst).Nodup
    rw [hdata]
    exact hfields.1
  · show ∀ id ∈ (insertBeforeId b.data (b.index_by_position.getD p 0)
      (b.next_id, e)).map Prod.fst, id < b.next_id + 1
    rw [hdata]
    exact hfields.2.1
  · show ((insertBeforeId b.data (b.index_by_position.getD p 0) (b.next_id, e)).map
      (fun x => x.2.name)).Nodup
    rw [hdata]
    exact hfields.2.2.1
  · exact assocKeys_assocSet_nodup _ _ _ hInv.keys_nodup
  · intro n id
    show assocFind (assocSet b.index_by_name e.name b.next_id) n = some id ↔
      ∃ e', (id, e') ∈ insertBeforeId b.data (b.index_by_position.getD p 0) (b.next_id, e) ∧
        e'.name = n
    rw [hdata]
    exact hfields.2.2.2 n id

theorem Inv_eraseCore (b : Block) (q : Nat) (hInv : Inv b) (hq : q < b.data.length) :
    Inv ⟨b.data.eraseIdx q, (b.data.map Prod.fst).eraseIdx q,
         assocErase b.index_by_name (b.data.getD q (0, default)).2.name, b.next_id⟩ := by
  have hx0mem : b.data.getD q (0, default) ∈ b.data := by
    rw [List.getD_eq_getElem _ _ hq]
    exact List.getElem_mem hq
  have hdnodup : b.data.Nodup := List.Nodup.of_map Prod.fst hInv.ids_nodup
  have hsub : (b.data.eraseIdx q).Sublist b.data := List.eraseIdx_sublist b.data q
  refine ⟨?_, ?_, ?_, ?_, ?_, ?_⟩
  · exact (map_eraseIdx Prod.fst q b.data).symm
  · exact ((hsub.map Prod.fst).nodup hInv.ids_nodup)
  · intro id hid
    exact hInv.ids_lt id ((hsub.map Prod.fst).mem hid)
  · have hnn : (b.data.map (fun x => x.2.name)).Nodup := hInv.names_nodup
    exact ((hsub.map (fun x => x.2.name)).nodup hnn)
  · exact assocKeys_assocErase_nodup _ _ hInv.keys_nodup
  · intro n id
    rw [assocFind_assocErase _ _ _ hInv.keys_nodup]
    by_cases hn : (b.data.getD q (0, default)).2.name = n
    · rw [if_pos hn]
      constructor
      · intro hsome
        exact Option.noConfusion hsome
      · rintro ⟨e', hmem, hname⟩
        exfalso
        have hmem' : (id, e') ∈ b.data := hsub.mem hmem
        have heqx : (id, e') = b.data.getD q (0, default) :=
          List.inj_on_of_nodup_map hInv.names_nodup hmem' hx0mem (by rw [hname, hn])
        rw [heqx] at hmem
        exact not_mem_eraseIdx_self (0, default) b.data q hq hdnodup hmem
    · rw [if_neg hn, hInv.name_iff n id]
      constructor
      · rintro ⟨e', hmem, hname⟩
        refine ⟨e', ?_, hname⟩
        refine mem_eraseIdx_of_ne (0, default) b.data q (id, e') hq hmem ?_
        intro heqx
        apply hn
        rw [← heqx, hname]
      · rintro ⟨e', hmem, hname⟩
        exact ⟨e', hsub.mem hmem, hname⟩

theorem Inv_erase (b : Block) (p : Nat) (b' : Block)
    (hInv : Inv b) (hok : b.erase p = .ok b') : Inv b' := by
  unfold Block.erase at hok
  by_cases hge : p ≥ b.index_by_position.length
  · rw [if_pos hge] at hok
    exact Except.noConfusion hok
  rw [if_neg hge] at hok
  have hp : p < b.data.length := by
    rw [← List.length_map b.data Prod.fst, ← hInv.pos_eq]
    exact Nat.lt_of_not_le hge
  have hit : b.index_by_position.getD p 0 = (b.data.getD p (0, default)).1 := by
    rw [hInv.pos_eq]
    exact getD_map_fst b.data p hp
  have hx0mem : ((b.data.getD p (0, default)).1, (b.data.getD p (0, default)).2) ∈ b.data := by
    rw [List.getD_eq_getElem _ _ hp]
    exact List.getElem_mem hp
  have hderef : derefId b.data (b.index_by_position.getD p 0) = (b.data.getD p (0, default)).2 := by
    rw [hit]
    exact derefId_eq b.data _ _ hInv.ids_nodup hx0mem
  have hpos : idPosition b.data (b.index_by_position.getD p 0) = p := by
    rw [hInv.pos_eq]
    exact idPosition_getD_fst b.data p hp hInv.ids_nodup
  have hdata : eraseById b.data (b.index_by_position.getD p 0) = b.data.eraseIdx p := by
    rw [hit] at hpos ⊢
    rw [eraseById_eq_eraseIdx b.data _ _ hInv.ids_nodup hx0mem, hpos]
  rw [← Except.ok.inj hok]
  have hcore := Inv_eraseCore b p hInv hp
  refine ⟨?_, ?_, ?_, ?_, ?_, ?_⟩
  · show b.index_by_position.eraseIdx p = (eraseById b.data (b.index_by_position.getD p 0)).map
      Prod.fst
    rw [hdata, hInv.pos_eq]
    exact hcore.pos_eq
  · show ((eraseById b.data (b.index_by_position.getD p 0)).map Prod.fst).Nodup
    rw [hdata]
    exact hcore.ids_nodup
  · show ∀ id ∈ (eraseById b.data (b.index_by_position.getD p 0)).map Prod.fst, id < b.next_id
    rw [hdata]
    exact hcore.ids_lt
  · show ((eraseById b.data (b.index_by_position.getD p 0)).map (fun x => x.2.name)).Nodup
    rw [hdata]
    exact hcore.names_nodup
  · show (assocKeys (assocErase b.index_by_name
      (derefId b.data (b.index_by_position.getD p 0)).name)).Nodup
    rw [hderef]
    exact hcore.keys_nodup
  · intro n id
    show assocFind (assocErase b.index_by_name
        (derefId b.data (b.index_by_position.getD p 0)).name) n = some id ↔
      ∃ e, (id, e) ∈ eraseById b.data (b.index_by_position.getD p 0) ∧ e.name = n
    rw [hderef, hdata]
    exact hcore.name_iff n id

theorem Inv_eraseByName (b : Block) (nm : String) (b' : Block)
    (hInv : Inv b) (hok : b.eraseByName nm = .ok b') : Inv b' := by
  unfold Block.eraseByName at hok
  cases hv : assocFind b.index_by_name nm with
  | none =>
    rw [hv] at hok
    exact Except.noConfusion hok
  | some it =>
    rw [hv] at hok
    rcases (hInv.name_iff nm it).mp hv with ⟨e', hmem, hname⟩
    have hspec := findId_spec b.data it e' hInv.ids_nodup hmem
    have hq : idPosition b.data it < b.data.length := hspec.2.1
    have hgetD : b.data.getD (idPosition b.data it) (0, default) = (it, e') := hspec.2.2
    have hdata : eraseById b.data it = b.data.eraseIdx (idPosition b.data it) :=
      eraseById_eq_eraseIdx b.data it e' hInv.ids_nodup hmem
    have hcore := Inv_eraseCore b (idPosition b.data it) hInv hq
    rw [← Except.ok.inj hok]
    refine ⟨?_, ?_, ?_, ?_, ?_, ?_⟩
    · show b.index_by_position.eraseIdx (idPosition b.data it) = (eraseById b.data it).map Prod.fst
      rw [hdata, hInv.pos_eq]
      exact hcore.pos_eq
    · show ((eraseById b.data it).map Prod.fst).Nodup
      rw [hdata]
      exact hcore.ids_nodup
    · show ∀ id ∈ (eraseById b.data it).map Prod.fst, id < b.next_id
      rw [hdata]
      exact hcore.ids_lt
    · show ((eraseById b.data it).map (fun x => x.2.name)).Nodup
      rw [hdata]
      exact hcore.names_nodup
    · show (assocKeys (assocErase b.index_by_name nm)).Nodup
      have : nm = (b.data.getD (idPosition b.data it) (0, default)).2.name := by
        rw [hgetD, ← hname]
      rw [this]
      exact hcore.keys_nodup
    · intro n id
      show assocFind (assocErase b.index_by_name nm) n = some id ↔
        ∃ e, (id, e) ∈ eraseById b.data it ∧ e.name = n
      have : nm = (b.data.getD (idPosition b.data it) (0, default)).2.name := by
        rw [hgetD, ← hname]
      rw [this, hdata]
      exact hcore.name_iff n id

/-- Reachability from the empty block when every insertion is of a name not
yet present (the discipline under which the dual indexes stay consistent). -/
inductive ReachesD : Block → Prop
  | empty : ReachesD Block.empty
  | insert {b : Block} {e : ColumnWithNameAndType} :
      ReachesD b → b.has e.name = false → ReachesD (b.insert e)
  | insertAt {b b' : Block} {p : Nat} {e : ColumnWithNameAndType} :
      ReachesD b → b.has e.name = false → b.insertAt p e = .ok b' → ReachesD b'
  | erase {b b' : Block} {p : Nat} : ReachesD b → b.erase p = .ok b' → ReachesD b'
  | eraseByName {b b' : Block} {n : String} :
      ReachesD b → b.eraseByName n = .ok b' → ReachesD b'

theorem Inv_of_reachesD {b : Block} (h : ReachesD b) : Inv b := by
  induction h with
  | empty => exact Inv_empty
  | insert hr hhas ih => exact Inv_insert _ _ ih hhas
  | insertAt hr hhas hok ih => exact Inv_insertAt _ _ _ _ ih hhas hok
  | erase hr hok ih => exact Inv_erase _ _ _ ih hok
  | eraseByName hr hok ih => exact Inv_eraseByName _ _ _ ih hok

theorem inv_lookup (b : Block) (hInv : Inv b) (n : String) (hn : n ∈ b.names) :
    ∃ p e, b.getPositionByName n = .ok p ∧ b.getByPosition p = .ok e ∧ e.name = n := by
  rcases List.mem_map.mp hn with ⟨x, hx, hname⟩
  have hxmem : (x.1, x.2) ∈ b.data := hx
  have hfind : assocFind b.index_by_name n = some x.1 :=
    (hInv.name_iff n x.1).mpr ⟨x.2, hxmem, hname⟩
  have hspec := findId_spec b.data x.1 x.2 hInv.ids_nodup hxmem
  refine ⟨idPosition b.data x.1, x.2, ?_, ?_, hname⟩
  · unfold Block.getPositionByName
    rw [hfind]
  · unfold Block.getByPosition
    have hlen : idPosition b.data x.1 < b.index_by_position.length := by
      rw [hInv.pos_eq, List.length_map]
      exact hspec.2.1
    rw [if_neg (Nat.not_le.mpr hlen)]
    have hgetD : b.index_by_position.getD (idPosition b.data x.1) 0 = x.1 := by
      rw [hInv.pos_eq, getD_map_fst b.data _ hspec.2.1, hspec.2.2]
    rw [hgetD, derefId_eq b.data x.1 x.2 hInv.ids_nodup hxmem]

/-- C6 counterexample: `blockDesync` is reachable from the empty block by
`insert "a"; insert "a"; erase 0` (the claim's operations), its data still
contains a column named "a", but `getPositionByName("a")` fails with
ColumnNotFound — `erase(0)` removed the single name-index entry for "a" even
though that entry pointed at the other, surviving occurrence. -/
theorem claim_C6_counterexample :
    Reaches blockDesync ∧
    ("a") ∈ blockDesync.names ∧
    blockDesync.getPositionByName ("a") =
      .error (.columnNotFound (("Not found column a in block. There are only columns: a"))) := by
  refine ⟨reaches_blockDesync, by decide, by decide⟩

/-- C6 as amended: for every block reachable from the empty block by insert
(append), insert-at-position and erase operations in which every inserted
element's name is absent at insertion time (`has = false`), after each
operation every name present in the block resolves consistently —
`getByPosition(getPositionByName(name))` yields an element of that very name —
and the position index has exactly as many entries as the block has
elements. -/
theorem claim_C6 (b : Block) (hr : ReachesD b) :
    (∀ n ∈ b.names, ∃ p e, b.getPositionByName n = .ok p ∧
      b.getByPosition p = .ok e ∧ e.name = n) ∧
    b.index_by_position.length = b.data.length := by
  have hInv := Inv_of_reachesD hr
  refine ⟨fun n hn => inv_lookup b hInv n hn, ?_⟩
  rw [hInv.pos_eq, List.length_map]

/-- Witness for C6: the position-index length equals the element count on the
concrete reachable block obtained by appending "a" to the empty block. -/
theorem claim_C6_witness :
    (Block.empty.insert elemA).index_by_position.length =
      (Block.empty.insert elemA).data.length :=
  (claim_C6 (Block.empty.insert elemA)
    (ReachesD.insert ReachesD.empty (by decide))).2

theorem except_map_error_iff {ε α β : Type} (f : α → β) (r : Except ε α) (e : ε) :
    r.map f = .error e ↔ r = .error e := by
  cases r <;> simp [Except.map]

theorem except_map_ok_iff {ε α β : Type} (f : α → β) (r : Except ε α) (y : β) :
    r.map f = .ok y ↔ ∃ x, r = .ok x ∧ y = f x := by
  cases r <;> simp [Except.map, eq_comm]

/-- Storage id and offsets of the first array column of a nested group in a
data sequence. -/
def firstArrayOfGroup (l : List (Nat × ColumnWithNameAndType)) (g : String) :
    Option (Nat × List Nat) :=
  l.findSome? (fun x => match x.2.column with
    | .array sid offsets =>
      if extractNestedTableName x.2.name = g then some (sid, offsets) else none
    | .plain _ => none)

theorem firstArrayOfGroup_cons_plain (x : Nat × ColumnWithNameAndType)
    (l : List (Nat × ColumnWithNameAndType)) (g : String) (sz : Nat)
    (hcol : x.2.column = .plain sz) :
    firstArrayOfGroup (x :: l) g = firstArrayOfGroup l g := by
  unfold firstArrayOfGroup
  rw [List.findSome?_cons]
  simp [hcol]

theorem firstArrayOfGroup_cons_array_match (x : Nat × ColumnWithNameAndType)
    (l : List (Nat × ColumnWithNameAndType)) (g : String) (sid : Nat) (offsets : List Nat)
    (hcol : x.2.column = .array sid offsets) (hg : extractNestedTableName x.2.name = g) :
    firstArrayOfGroup (x :: l) g = some (sid, offsets) := by
  unfold firstArrayOfGroup
  rw [List.findSome?_cons]
  simp [hcol, hg]

theorem firstArrayOfGroup_cons_array_nomatch (x : Nat × ColumnWithNameAndType)
    (l : List (Nat × ColumnWithNameAndType)) (g : String) (sid : Nat) (offsets : List Nat)
    (hcol : x.2.column = .array sid offsets) (hg : extractNestedTableName x.2.name ≠ g) :
    firstArrayOfGroup (x :: l) g = firstArrayOfGroup l g := by
  unfold firstArrayOfGroup
  rw [List.findSome?_cons]
  simp [hcol, hg]

theorem seenRel_set (seenO : List (String × (Nat × List Nat))) (seenC : List (String × List Nat))
    (hrel : ∀ g, assocFind seenC g = (assocFind seenO g).map Prod.snd)
    (gname : String) (sid : Nat) (offsets : List Nat) :
    ∀ g, assocFind (assocSet seenC gname offsets) g =
      (assocFind (assocSet seenO gname (sid, offsets)) g).map Prod.snd := by
  intro g
  rw [assocFind_assocSet, assocFind_assocSet]
  by_cases h : gname = g
  · simp [h]
  · simp [h, hrel g]

theorem optimize_check_error_agree :
    ∀ (l : List (Nat × ColumnWithNameAndType)) (seenO : List (String × (Nat × List Nat)))
      (seenC : List (String × List Nat)),
      (∀ g, assocFind seenC g = (assocFind seenO g).map Prod.snd) →
      ∀ e, optimizeNestedGo seenO l = .error e ↔ checkNestedGo seenC l = .error e
  | [], seenO, seenC, hrel, e => by
    simp [optimizeNestedGo, checkNestedGo]
  | x :: rest, seenO, seenC, hrel, e => by
    cases hcol : x.2.column with
    | plain sz =>
      simp only [optimizeNestedGo, checkNestedGo, hcol]
      rw [except_map_error_iff]
      exact optimize_check_error_agree rest seenO seenC hrel e
    | array sid offsets =>
      simp only [optimizeNestedGo, checkNestedGo, hcol]
      cases hfo : assocFind seenO (extractNestedTableName x.2.name) with
      | none =>
        have hfc : assocFind seenC (extractNestedTableName x.2.name) = none := by
          rw [hrel, hfo]
          rfl
        simp only [hfo, hfc]
        rw [except_map_error_iff]
        exact optimize_check_error_agree rest _ _ (seenRel_set seenO seenC hrel _ sid offsets) e
      | some first =>
        have hfc : assocFind seenC (extractNestedTableName x.2.name) = some first.2 := by
          rw [hrel, hfo]
          rfl
        simp only [hfo, hfc]
        by_cases he : first.2 = offsets
        · simp only [if_pos he]
          rw [except_map_error_iff]
          exact optimize_check_error_agree rest seenO seenC hrel e
        · simp only [if_neg he]
          constructor
          · intro h
            rw [Except.error.inj h]
          · intro h
            rw [Except.error.inj h]

theorem check_ok_of_optimize :
    ∀ (l l' : List (Nat × ColumnWithNameAndType)) (seenO : List (String × (Nat × List Nat)))
      (seenC : List (String × List Nat)),
      (∀ g, assocFind seenC g = (assocFind seenO g).map Prod.snd) →
      optimizeNestedGo seenO l = .ok l' → checkNestedGo seenC l' = .ok ()
  | [], l', seenO, seenC, hrel, hok => by
    simp only [optimizeNestedGo] at hok
    rw [← Except.ok.inj hok]
    rfl
  | x :: rest, l', seenO, seenC, hrel, hok => by
    cases hcol : x.2.column with
    | plain sz =>
      simp only [optimizeNestedGo, hcol] at hok
      rcases (except_map_ok_iff _ _ _).mp hok with ⟨r', hr', hl'⟩
      rw [hl']
      simp only [checkNestedGo, hcol]
      exact check_ok_of_optimize rest r' seenO seenC hrel hr'
    | array sid offsets =>
      simp only [optimizeNestedGo, hcol] at hok
      cases hfo : assocFind seenO (extractNestedTableName x.2.name) with
      | none =>
        have hfc : assocFind seenC (extractNestedTableName x.2.name) = none := by
          rw [hrel, hfo]
          rfl
        simp only [hfo] at hok
        rcases (except_map_ok_iff _ _ _).mp hok with ⟨r', hr', hl'⟩
        rw [hl']
        simp only [checkNestedGo, hcol, hfc]
        exact check_ok_of_optimize rest r' _ _ (seenRel_set seenO seenC hrel _ sid offsets) hr'
      | some first =>
        have hfc : assocFind seenC (extractNestedTableName x.2.name) = some first.2 := by
          rw [hrel, hfo]
          rfl
        simp only [hfo] at hok
        by_cases he : first.2 = offsets
        · rw [if_pos he] at hok
          rcases (except_map_ok_iff _ _ _).mp hok with ⟨r', hr', hl'⟩
          rw [hl']
          simp only [checkNestedGo, hfc]
          rw [if_pos trivial]
          exact check_ok_of_optimize rest r' seenO seenC hrel hr'
        · rw [if_neg he] at hok
          exact Except.noConfusion hok

theorem optimize_shares :
    ∀ (l l' : List (Nat × ColumnWithNameAndType)) (seenO : List (String × (Nat × List Nat))),
      optimizeNestedGo seenO l = .ok l' →
      ∀ x ∈ l', ∀ sid offsets, x.2.column = .array sid offsets →
        ((∃ so, assocFind seenO (extractNestedTableName x.2.name) = some so ∧
            sid = so.1 ∧ offsets = so.2) ∨
         (assocFind seenO (extractNestedTableName x.2.name) = none ∧
          ∃ y, firstArrayOfGroup l' (extractNestedTableName x.2.name) = some y ∧
            sid = y.1 ∧ offsets = y.2))
  | [], l', seenO, hok, x, hx, sid, offsets, hcol => by
    simp only [optimizeNestedGo] at hok
    rw [← Except.ok.inj hok] at hx
    exact absurd hx (by simp)
  | x0 :: rest, l', seenO, hok, x, hx, sid, offsets, hcol => by
    cases hcol0 : x0.2.column with
    | plain sz =>
      simp only [optimizeNestedGo, hcol0] at hok
      rcases (except_map_ok_iff _ _ _).mp hok with ⟨r', hr', hl'⟩
      subst hl'
      rcases List.mem_cons.mp hx with hhead | htail
      · rw [hhead] at hcol
        rw [hcol0] at hcol
        exact IColumn.noConfusion hcol
      · rcases optimize_shares rest r' seenO hr' x htail sid offsets hcol with h | h
        · exact Or.inl h
        · refine Or.inr ⟨h.1, ?_⟩
          rw [firstArrayOfGroup_cons_plain x0 r' _ sz hcol0]
          exact h.2
    | array sid0 offs0 =>
      simp only [optimizeNestedGo, hcol0] at hok
      cases hfo : assocFind seenO (extractNestedTableName x0.2.name) with
      | none =>
        simp only [hfo] at hok
        rcases (except_map_ok_iff _ _ _).mp hok with ⟨r', hr', hl'⟩
        subst hl'
        rcases List.mem_cons.mp hx with hhead | htail
        · subst hhead
          rw [hcol0] at hcol
          have hsid : sid = sid0 := (IColumn.array.inj hcol).1.symm
          have hoffs : offsets = offs0 := (IColumn.array.inj hcol).2.symm
          refine Or.inr ⟨hfo, (sid0, offs0), ?_, hsid, hoffs⟩
          exact firstArrayOfGroup_cons_array_match x r' _ sid0 offs0 hcol0 rfl
        · have ih := optimize_shares rest r'
            (assocSet seenO (extractNestedTableName x0.2.name) (sid0, offs0)) hr'
            x htail sid offsets hcol
          by_cases hg : extractNestedTableName x0.2.name = extractNestedTableName x.2.name
          · rcases ih with ⟨so, hso, hs1, hs2⟩ | ⟨hnone, _⟩
            · rw [assocFind_assocSet, if_pos hg] at hso
              have hso' : so = (sid0, offs0) := (Option.some_inj.mp hso).symm
              subst hso'
              refine Or.inr ⟨by rw [← hg]; exact hfo, (sid0, offs0), ?_, hs1, hs2⟩
              rw [← hg]
              exact firstArrayOfGroup_cons_array_match x0 r' _ sid0 offs0 hcol0 rfl
            · rw [assocFind_assocSet, if_pos hg] at hnone
              exact Option.noConfusion hnone
          · rcases ih with ⟨so, hso, hs1, hs2⟩ | ⟨hnone, y, hy, hy1, hy2⟩
            · rw [assocFind_assocSet, if_neg hg] at hso
              exact Or.inl ⟨so, hso, hs1, hs2⟩
            · rw [assocFind_assocSet, if_neg hg] at hnone
              refine Or.inr ⟨hnone, y, ?_, hy1, hy2⟩
              rw [firstArrayOfGroup_cons_array_nomatch x0 r' _ sid0 offs0 hcol0 hg]
              exact hy
      | some first =>
        simp only [hfo] at hok
        by_cases he : first.2 = offs0
        · rw [if_pos he] at hok
          rcases (except_map_ok_iff _ _ _).mp hok with ⟨r', hr', hl'⟩
          subst hl'
          rcases List.mem_cons.mp hx with hhead | htail
          · subst hhead
            have h : IColumn.array first.1 first.2 = IColumn.array sid offsets := hcol
            have hsid : sid = first.1 := ((IColumn.array.inj h).1).symm
            have hoffs : offsets = first.2 := ((IColumn.array.inj h).2).symm
            exact Or.inl ⟨first, hfo, hsid, hoffs⟩
          · have ih := optimize_shares rest r' seenO hr' x htail sid offsets hcol
            rcases ih with h | ⟨hnone, y, hy, hy1, hy2⟩
            · exact Or.inl h
            · have hg : extractNestedTableName x0.2.name ≠ extractNestedTableName x.2.name := by
                intro hge
                rw [hge, hnone] at hfo
                exact Option.noConfusion hfo
              refine Or.inr ⟨hnone, y, ?_, hy1, hy2⟩
              have hfr := firstArrayOfGroup_cons_array_nomatch
                (x0.1, ⟨IColumn.array first.1 first.2, x0.2.type, x0.2.name⟩) r'
                (extractNestedTableName x.2.name) first.1 first.2 rfl hg
              rw [hfr]
              exact hy
        · rw [if_neg he] at hok
          exact Except.noConfusion hok

/-- A data type standing for an array type. -/
def typeArr : DataType := ⟨"Array(UInt8)", false, false⟩

/-- Array column "n.x" of nested group "n" with offsets `[2, 4, 7]` in its own
offsets storage 10. -/
def elemNX : ColumnWithNameAndType := ⟨.array 10 [2, 4, 7], typeArr, "n.x"⟩

/-- Array column "n.y" of nested group "n" with equal offsets in a distinct
offsets storage 20. -/
def elemNY : ColumnWithNameAndType := ⟨.array 20 [2, 4, 7], typeArr, "n.y"⟩

/-- The block with the two array columns of group "n". -/
def blockNested : Block := (Block.empty.insert elemNX).insert elemNY

/-- The same block after `optimizeNestedArraysOffsets`: "n.y" now shares the
offsets storage 10 of "n.x". -/
def blockNestedOpt : Block :=
  ⟨[(0, elemNX), (1, ⟨.array 10 [2, 4, 7], typeArr, "n.y"⟩)], [0, 1],
   [("n.x", 0), ("n.y", 1)], 2⟩

/-- C10: whenever `optimizeNestedArraysOffsets` completes without raising,
every array column of the result carries the storage id (and offsets) of the
first array column of its nested group, and an immediately following
`checkNestedArraysOffsets` on the result also completes without raising;
moreover `optimizeNestedArraysOffsets` raises exactly the errors (SizesMismatch)
that `checkNestedArraysOffsets` raises on the same block. -/
theorem claim_C10 :
    (∀ b b' : Block, b.optimizeNestedArraysOffsets = .ok b' →
      (∀ x ∈ b'.data, ∀ sid offsets, x.2.column = .array sid offsets →
        ∃ y, firstArrayOfGroup b'.data (extractNestedTableName x.2.name) = some y ∧
          sid = y.1 ∧ offsets = y.2) ∧
      b'.checkNestedArraysOffsets = .ok ()) ∧
    (∀ (b : Block) (e : BlockError),
      b.optimizeNestedArraysOffsets = .error e ↔ b.checkNestedArraysOffsets = .error e) := by
  constructor
  · intro b b' hok
    unfold Block.optimizeNestedArraysOffsets at hok
    rcases (except_map_ok_iff _ _ _).mp hok with ⟨d, hd, hb'⟩
    have hdata : b'.data = d := by rw [hb']
    constructor
    · intro x hx sid offsets hcol
      rw [hdata] at hx ⊢
      rcases optimize_shares b.data d [] hd x hx sid offsets hcol with ⟨so, hso, _⟩ | ⟨_, hfa⟩
      · exact absurd hso (by simp)
      · exact hfa
    · show checkNestedGo [] b'.data = .ok ()
      rw [hdata]
      exact check_ok_of_optimize b.data d [] [] (fun g => rfl) hd
  · intro b e
    unfold Block.optimizeNestedArraysOffsets Block.checkNestedArraysOffsets
    rw [except_map_error_iff]
    exact optimize_check_error_agree b.data [] [] (fun g => rfl) e

/-- Witness for C10: on the concrete two-column nested block the optimization
succeeds, re-points "n.y" onto the storage of "n.x", and the subsequent check
of the result succeeds. -/
theorem claim_C10_witness :
    blockNestedOpt.checkNestedArraysOffsets = .ok () :=
  (claim_C10.1 blockNested blockNestedOpt (by decide)).2

end DB
